import Mathlib

/-!
Verification of the state and transformation engine of `pixel-canvas`
(`src/pixel-canvas.tsx`): color conversions (hue slider value and onChange,
brightness, hex input), the grid model (`drawPixel`), the linear undo/redo
history (`saveToHistory`, `undo`, `redo`, `clearCanvas`) and the rasterizer
(`downloadImage`).

The JavaScript number arithmetic of the color conversions is embedded as
exact fraction arithmetic over ℤ (numerator / positive denominator, never
normalized), so that every definition is executable by the kernel.
`Math.round x = ⌊x + 1/2⌋` and the JavaScript `%` operator is the remainder
that keeps the sign of the dividend (`a - n * trunc (a / n)`).
-/

/-- A color is stored as its hex string, e.g. `"#FF0000"`. -/
abbrev Color := String

/-- `GRID_SIZE` from the source: the canvas is a 32 × 32 grid. -/
def GRID_SIZE : ℕ := 32

/-! ## Exact fractions (embedding of JavaScript number arithmetic) -/

/-- An unnormalized fraction `num / den`.  All fractions built by the
embedding have a positive denominator. -/
structure Frac where
  num : ℤ
  den : ℤ
  deriving DecidableEq

/-- Embed an integer as a fraction. -/
def Frac.ofInt (n : ℤ) : Frac := ⟨n, 1⟩

def Frac.add (a b : Frac) : Frac := ⟨a.num * b.den + b.num * a.den, a.den * b.den⟩

def Frac.sub (a b : Frac) : Frac := ⟨a.num * b.den - b.num * a.den, a.den * b.den⟩

def Frac.mul (a b : Frac) : Frac := ⟨a.num * b.num, a.den * b.den⟩

/-- Division of fractions.  The divisors appearing in the source
(255, 60, 6, 2 and a nonzero `max - min`) are all positive, and the sign
adjustment keeps the denominator positive. -/
def Frac.div (a b : Frac) : Frac :=
  if 0 ≤ b.num then ⟨a.num * b.den, a.den * b.num⟩ else ⟨-(a.num * b.den), a.den * -b.num⟩

/-- `Math.abs`. -/
def Frac.absF (a : Frac) : Frac := ⟨|a.num|, a.den⟩

/-- Value comparison `a <= b` (denominators positive). -/
def Frac.leF (a b : Frac) : Bool := decide (a.num * b.den ≤ b.num * a.den)

/-- Value equality `a === b` (denominators positive). -/
def Frac.beq (a b : Frac) : Bool := decide (a.num * b.den = b.num * a.den)

/-- `Math.max`. -/
def Frac.maxF (a b : Frac) : Frac := if Frac.leF a b then b else a

/-- `Math.min`. -/
def Frac.minF (a b : Frac) : Frac := if Frac.leF b a then b else a

/-- `Math.trunc` of the value of a fraction (round toward zero); `Int./` is
Euclidean division, which rounds toward `-∞` for our positive denominators,
so the negative case is routed through `-(-num / den)`. -/
def Frac.truncF (a : Frac) : ℤ :=
  if 0 ≤ a.num then a.num / a.den else -(-a.num / a.den)

/-- `Math.round` of the value of a fraction: `⌊num/den + 1/2⌋ = (2·num + den) / (2·den)`. -/
def Frac.roundF (a : Frac) : ℤ := (2 * a.num + a.den) / (2 * a.den)

/-- The JavaScript `%` operator on numbers: `a - n * trunc (a / n)`
(the result keeps the sign of the dividend). -/
def Frac.jsRem (a n : Frac) : Frac :=
  Frac.sub a (Frac.mul n (Frac.ofInt (Frac.truncF (Frac.div a n))))

/-- The mathematical modulus `a - n * ⌊a / n⌋`, whose result lies in `[0, n)`
for `n > 0`.  This is the reading of `mod` in the specification's hue
formula, used to compare the code against the spec. -/
def Frac.mathMod (a n : Frac) : Frac :=
  Frac.sub a (Frac.mul n (Frac.ofInt ((Frac.div a n).num / (Frac.div a n).den)))

/-! ## Hex string utilities -/

/-- Value of one hex digit (`Number.parseInt` base 16 semantics per digit);
any non-digit contributes 0. -/
def hexDigitVal (c : Char) : ℕ :=
  if '0' ≤ c ∧ c ≤ '9' then c.toNat - '0'.toNat
  else if 'a' ≤ c ∧ c ≤ 'f' then c.toNat - 'a'.toNat + 10
  else if 'A' ≤ c ∧ c ≤ 'F' then c.toNat - 'A'.toNat + 10
  else 0

/-- Remove the first occurrence of a character: `String.replace("#", "")`
with a string pattern replaces only the first occurrence in JavaScript. -/
def stripFirst (ch : Char) : List Char → List Char
  | [] => []
  | c :: cs => if c = ch then cs else c :: stripFirst ch cs

/-- `Number.parseInt(hex.substr(i, 2), 16)` for a list of hex digits. -/
def hexPairAt (l : List Char) (i : ℕ) : ℕ :=
  16 * hexDigitVal (l.getD i '0') + hexDigitVal (l.getD (i + 1) '0')

/-- One lowercase hex digit, as produced by `Number.toString(16)`. -/
def toHexDigit (n : ℕ) : Char :=
  if n < 10 then Char.ofNat ('0'.toNat + n) else Char.ofNat ('a'.toNat + n - 10)

/-- `n.toString(16).padStart(2, "0")` for `n ∈ [0, 255]`. -/
def toHex2 (n : ℕ) : String := String.mk [toHexDigit (n / 16), toHexDigit (n % 16)]

/-! ## ColorConverter: hue slider value (lines 333–349 of the source) -/

/-- The channel-level core of the hue slider `value` computation: normalize
the channels by 255 and apply the max/min-channel chroma method, where `%`
is the JavaScript remainder.  `Math.round(h * 60)`. -/
def hueOfChannels (R G B : ℕ) : ℤ :=
  let r := Frac.div (Frac.ofInt R) (Frac.ofInt 255)
  let g := Frac.div (Frac.ofInt G) (Frac.ofInt 255)
  let b := Frac.div (Frac.ofInt B) (Frac.ofInt 255)
  let maxC := Frac.maxF r (Frac.maxF g b)
  let minC := Frac.minF r (Frac.minF g b)
  let diff := Frac.sub maxC minC
  let h :=
    if ¬ (Frac.beq diff (Frac.ofInt 0)) then
      if Frac.beq maxC r then Frac.jsRem (Frac.div (Frac.sub g b) diff) (Frac.ofInt 6)
      else if Frac.beq maxC g then Frac.add (Frac.div (Frac.sub b r) diff) (Frac.ofInt 2)
      else Frac.add (Frac.div (Frac.sub r g) diff) (Frac.ofInt 4)
    else Frac.ofInt 0
  Frac.roundF (Frac.mul h (Frac.ofInt 60))

/-- The hue slider `value` computation: parse the selected color's channels
and convert them to a hue. -/
def colorToHue (color : String) : ℤ :=
  let hex := stripFirst '#' color.data
  hueOfChannels (hexPairAt hex 0) (hexPairAt hex 2) (hexPairAt hex 4)

/-- The specification's reading of the channel-level hue computation,
identical to the code except that `mod 6` is the mathematical modulus
(result in `[0, 6)`) instead of the JavaScript remainder. -/
def hueOfChannelsSpec (R G B : ℕ) : ℤ :=
  let r := Frac.div (Frac.ofInt R) (Frac.ofInt 255)
  let g := Frac.div (Frac.ofInt G) (Frac.ofInt 255)
  let b := Frac.div (Frac.ofInt B) (Frac.ofInt 255)
  let maxC := Frac.maxF r (Frac.maxF g b)
  let minC := Frac.minF r (Frac.minF g b)
  let diff := Frac.sub maxC minC
  let h :=
    if ¬ (Frac.beq diff (Frac.ofInt 0)) then
      if Frac.beq maxC r then Frac.mathMod (Frac.div (Frac.sub g b) diff) (Frac.ofInt 6)
      else if Frac.beq maxC g then Frac.add (Frac.div (Frac.sub b r) diff) (Frac.ofInt 2)
      else Frac.add (Frac.div (Frac.sub r g) diff) (Frac.ofInt 4)
    else Frac.ofInt 0
  Frac.roundF (Frac.mul h (Frac.ofInt 60))

/-- The specification's reading of `colorToHue` (mathematical modulus). -/
def colorToHueSpec (color : String) : ℤ :=
  let hex := stripFirst '#' color.data
  hueOfChannelsSpec (hexPairAt hex 0) (hexPairAt hex 2) (hexPairAt hex 4)

/-! ## ColorConverter: hue slider onChange (lines 350–392 of the source) -/

/-- The hue slider `onChange` handler: HSL → hex assuming full saturation and
50% lightness.  Chroma `c = 1`, `x = c * (1 - |((hue/60) % 2) - 1|)`,
`m = 0.5 - c/2`; the six sextant branches assign the pre-offset channels and
any hue outside `[0, 360)` falls through with `(0, 0, 0)`; each final channel
is `Math.round((channel + m) * 255)` encoded as two lowercase hex digits. -/
def hueToColor (hue : ℤ) : String :=
  let c := Frac.ofInt 1
  let x := Frac.mul c (Frac.sub (Frac.ofInt 1)
    (Frac.absF (Frac.sub (Frac.jsRem (Frac.div (Frac.ofInt hue) (Frac.ofInt 60)) (Frac.ofInt 2))
      (Frac.ofInt 1))))
  let m := Frac.sub ⟨1, 2⟩ (Frac.div c (Frac.ofInt 2))
  let rgb : Frac × Frac × Frac :=
    if 0 ≤ hue ∧ hue < 60 then (c, x, Frac.ofInt 0)
    else if 60 ≤ hue ∧ hue < 120 then (x, c, Frac.ofInt 0)
    else if 120 ≤ hue ∧ hue < 180 then (Frac.ofInt 0, c, x)
    else if 180 ≤ hue ∧ hue < 240 then (Frac.ofInt 0, x, c)
    else if 240 ≤ hue ∧ hue < 300 then (x, Frac.ofInt 0, c)
    else if 300 ≤ hue ∧ hue < 360 then (c, Frac.ofInt 0, x)
    else (Frac.ofInt 0, Frac.ofInt 0, Frac.ofInt 0)
  let rv := Frac.roundF (Frac.mul (Frac.add rgb.1 m) (Frac.ofInt 255))
  let gv := Frac.roundF (Frac.mul (Frac.add rgb.2.1 m) (Frac.ofInt 255))
  let bv := Frac.roundF (Frac.mul (Frac.add rgb.2.2 m) (Frac.ofInt 255))
  "#" ++ toHex2 rv.toNat ++ toHex2 gv.toNat ++ toHex2 bv.toNat

/-! ## ColorConverter: brightness slider onChange (lines 408–440 of the source) -/

/-- The brightness slider `onChange` handler: for `level < 50` each raw
channel is scaled by `level / 50`; otherwise each channel moves toward 255
by the factor `(level - 50) / 50`. -/
def adjustBrightness (color : String) (brightness : ℤ) : String :=
  let hex := stripFirst '#' color.data
  let r : ℤ := hexPairAt hex 0
  let g : ℤ := hexPairAt hex 2
  let b : ℤ := hexPairAt hex 4
  let ch : ℤ → ℤ := fun v =>
    if brightness < 50 then Frac.roundF (Frac.mul (Frac.ofInt v) ⟨brightness, 50⟩)
    else Frac.roundF (Frac.add (Frac.ofInt v) (Frac.mul ⟨255 - v, 1⟩ ⟨brightness - 50, 50⟩))
  "#" ++ toHex2 (ch r).toNat ++ toHex2 (ch g).toNat ++ toHex2 (ch b).toNat

/-! ## ColorConverter: hex input onChange (lines 466–477 of the source) -/

/-- One-character test for `[0-9A-Fa-f]`. -/
def isHexDigitChar (c : Char) : Bool :=
  ('0' ≤ c && c ≤ '9') || ('A' ≤ c && c ≤ 'F') || ('a' ≤ c && c ≤ 'f')

/-- The anchored regular expression `^#[0-9A-Fa-f]{6}$` of the hex input:
a `'#'` followed by exactly six hexadecimal digits. -/
def hexColorTest (text : String) : Bool :=
  match text.data with
  | c :: rest => c == '#' && rest.length == 6 && rest.all isHexDigitChar
  | [] => false

/-- The hex input `onChange` handler: the selected color becomes `text` when
the regular expression accepts it, and is left unchanged otherwise. -/
def parseHex (selectedColor : Color) (text : String) : Color :=
  if hexColorTest text then text else selectedColor

/-! ## GridModel -/

/-- The canvas: a list of rows of colors. -/
abbrev Grid := List (List Color)

/-- `Array.prototype.map` with the element index, starting at `i`. -/
def mapIdxFrom {α β : Type} (f : ℕ → α → β) : ℕ → List α → List β
  | _, [] => []
  | i, a :: as => f i a :: mapIdxFrom f (i + 1) as

/-- `Array(side).fill(null).map(() => Array(side).fill(null).map(() => ({color: "#FFFFFF"})))`:
a fresh side × side all-white grid. -/
def mkGrid (side : ℕ) : Grid :=
  List.replicate side (List.replicate side "#FFFFFF")

/-- Read one cell: `canvas[row][col]`, `none` when out of bounds. -/
def getCell (g : Grid) (row col : ℕ) : Option Color :=
  g[row]?.bind fun r => r[col]?

/-- The pure core of `drawPixel`: map over the rows and columns, replacing
the pixel whose indices equal `(row, col)` with the selected color.  The
indices are integers; no bounds check is performed. -/
def setCell (g : Grid) (row col : ℤ) (color : Color) : Grid :=
  mapIdxFrom (fun rowIndex r =>
    mapIdxFrom (fun colIndex pixel =>
      if (rowIndex : ℤ) = row ∧ (colIndex : ℤ) = col then color else pixel) 0 r) 0 g

/-! ## HistoryStack (lines 46–81 of the source) -/

/-- The history state: the list of snapshots (`history`) and the cursor
(`historyIndex`), modelled after the seeding effect has run
(`history = [canvas]`, `historyIndex = 0`). -/
structure History where
  seq : List Grid
  cursor : ℕ
  deriving DecidableEq

/-- The seeded history: `setHistory([canvas]); setHistoryIndex(0)`. -/
def History.init (g : Grid) : History := ⟨[g], 0⟩

/-- `saveToHistory`: `history.slice(0, historyIndex + 1)`, push a (deep copy
of the) new canvas, and point the cursor at the new last index. -/
def saveToHistory (h : History) (g : Grid) : History :=
  let newHistory := h.seq.take (h.cursor + 1) ++ [g]
  ⟨newHistory, newHistory.length - 1⟩

/-- `undo`: when `historyIndex > 0`, step the cursor back; otherwise do
nothing (`AtHistoryStart`). -/
def undo (h : History) : History :=
  if 0 < h.cursor then ⟨h.seq, h.cursor - 1⟩ else h

/-- `redo`: when `historyIndex < history.length - 1`, step the cursor
forward; otherwise do nothing (`AtHistoryEnd`). -/
def redo (h : History) : History :=
  if h.cursor < h.seq.length - 1 then ⟨h.seq, h.cursor + 1⟩ else h

/-- Redo availability, as the UI derives it: the `Redo` button is disabled
(`AtHistoryEnd`) exactly when this is `false`. -/
def canRedo (h : History) : Bool := decide (h.cursor < h.seq.length - 1)

/-- The grid the cursor points at (the displayed snapshot). -/
def currentGrid (h : History) : Option Grid := h.seq.get? h.cursor

/-- The history states reachable through the component's operations. -/
inductive Reachable : History → Prop
  | init (g : Grid) : Reachable (History.init g)
  | save {h : History} (g : Grid) : Reachable h → Reachable (saveToHistory h g)
  | undo {h : History} : Reachable h → Reachable (undo h)
  | redo {h : History} : Reachable h → Reachable (redo h)

/-! ## Component state and event handlers -/

/-- The component state touched by the paint handlers. -/
structure PixelState where
  canvas : Grid
  selectedColor : Color
  history : History
  deriving DecidableEq

/-- `drawPixel`: build the new canvas, set it, and save it to the history.
There is no bounds check. -/
def drawPixel (s : PixelState) (row col : ℤ) : PixelState :=
  let newCanvas := setCell s.canvas row col s.selectedColor
  { s with canvas := newCanvas, history := saveToHistory s.history newCanvas }

/-- `clearCanvas`: replace the canvas with a fresh all-white
`GRID_SIZE × GRID_SIZE` grid and save it to the history. -/
def clearCanvas (s : PixelState) : PixelState :=
  let newCanvas := mkGrid GRID_SIZE
  { s with canvas := newCanvas, history := saveToHistory s.history newCanvas }

/-! ## Rasterizer (`downloadImage`, lines 136–156 of the source) -/

/-- The 2D canvas being drawn into: pixel `(px, py)` holds `some color` after
a fill covered it, `none` while untouched. -/
def PixelBuffer : Type := ℕ → ℕ → Option Color

/-- `ctx.fillRect(x, y, w, h)` with the current fill color. -/
def fillRect (buf : PixelBuffer) (x y w h : ℕ) (color : Color) : PixelBuffer :=
  fun px py =>
    if x ≤ px ∧ px < x + w ∧ y ≤ py ∧ py < y + h then some color else buf px py

/-- Inner `row.forEach((pixel, colIndex) => ctx.fillRect(colIndex * s, rowIndex * s, s, s))`. -/
def renderRowCells (s rowIndex : ℕ) : List Color → ℕ → PixelBuffer → PixelBuffer
  | [], _, buf => buf
  | color :: rest, colIndex, buf =>
      renderRowCells s rowIndex rest (colIndex + 1)
        (fillRect buf (colIndex * s) (rowIndex * s) s s color)

/-- Outer `canvas.forEach((row, rowIndex) => ...)`. -/
def renderRows (s : ℕ) : Grid → ℕ → PixelBuffer → PixelBuffer
  | [], _, buf => buf
  | row :: rest, rowIndex, buf =>
      renderRows s rest (rowIndex + 1) (renderRowCells s rowIndex row 0 buf)

/-- `downloadImage(format, scale)` up to encoding: an `N·s × N·s` buffer,
pre-filled with white when the format is `"jpeg"` (JPEG has no
transparency), then every cell filled as an `s × s` block. -/
def render (g : Grid) (format : String) (s : ℕ) : PixelBuffer :=
  let base : PixelBuffer := fun _ _ => none
  let base := if format = "jpeg"
    then fillRect base 0 0 (g.length * s) (g.length * s) "#FFFFFF" else base
  renderRows s g 0 base

/-! ## Helper lemmas -/

lemma mapIdxFrom_getElem? {α β : Type} (f : ℕ → α → β) (i : ℕ) (l : List α) :
    ∀ j, (mapIdxFrom f i l)[j]? = (l[j]?).map (f (i + j)) := by
  induction l generalizing i with
  | nil => intro j; simp [mapIdxFrom]
  | cons a as ih =>
    intro j
    cases j with
    | zero => simp [mapIdxFrom]
    | succ j =>
      have h2 : i + (j + 1) = (i + 1) + j := by omega
      have h3 : mapIdxFrom f i (a :: as) = f i a :: mapIdxFrom f (i + 1) as := rfl
      rw [h3, List.getElem?_cons_succ, List.getElem?_cons_succ, ih (i + 1) j, h2]

lemma replicate_getElem? {α : Type} (a : α) :
    ∀ (n j : ℕ), (List.replicate n a)[j]? = if j < n then some a else none := by
  intro n
  induction n with
  | zero => intro j; simp
  | succ n ih =>
    intro j
    cases j with
    | zero => simp [List.replicate]
    | succ j =>
      rw [List.replicate_succ, List.getElem?_cons_succ, ih j]
      by_cases h : j < n
      · rw [if_pos h, if_pos (by omega)]
      · rw [if_neg h, if_neg (by omega)]

lemma getCell_mkGrid (n r c : ℕ) (hr : r < n) (hc : c < n) :
    getCell (mkGrid n) r c = some "#FFFFFF" := by
  simp [getCell, mkGrid, replicate_getElem?, hr, hc]

lemma getElem?_bound {α : Type} {l : List α} {n : ℕ} {a : α} (h : l[n]? = some a) :
    n < l.length := by
  by_contra hn
  rw [List.getElem?_eq_none (by omega)] at h
  exact Option.noConfusion h

/-! ## Claims about the grid model -/

/-- C5: for every grid, valid coordinates and color, reading the written
cell back yields that color, and every other cell of the result equals the
corresponding cell of the input grid (the input grid itself is a value and
is never mutated: `setCell` only builds a new grid from it). -/
theorem setCell_getCell (g : Grid) (row col : ℕ) (c : Color)
    (hsq : ∀ r ∈ g, r.length = g.length)
    (hrow : row < g.length) (hcol : col < g.length) :
    getCell (setCell g row col c) row col = some c ∧
    ∀ r' c' : ℕ, ¬(r' = row ∧ c' = col) →
      getCell (setCell g row col c) r' c' = getCell g r' c' := by
  constructor
  · obtain ⟨r, hr⟩ : ∃ r, g[row]? = some r := by
      rw [List.getElem?_eq_getElem hrow]; exact ⟨_, rfl⟩
    have hrlen : r.length = g.length := hsq r (List.getElem?_mem hr)
    obtain ⟨p, hp⟩ : ∃ p, r[col]? = some p := by
      rw [List.getElem?_eq_getElem (by omega)]; exact ⟨_, rfl⟩
    simp [getCell, setCell, mapIdxFrom_getElem?, hr, hp]
  · intro r' c' hne
    simp only [getCell, setCell, mapIdxFrom_getElem?, Nat.zero_add]
    cases hg : g[r']? with
    | none => simp
    | some r =>
      simp only [Option.map_some', Option.some_bind, mapIdxFrom_getElem?, Nat.zero_add]
      cases hp : r[c']? with
      | none => simp
      | some p =>
        simp only [Option.map_some', Option.some_inj]
        rw [if_neg]
        rintro ⟨h1, h2⟩
        exact hne ⟨by exact_mod_cast h1, by exact_mod_cast h2⟩

/-- Out-of-bounds `setCell` leaves the grid unchanged: the per-pixel map
never finds indices equal to `(row, col)`. -/
lemma setCell_oob (g : Grid) (row col : ℤ) (c : Color)
    (hsq : ∀ r ∈ g, r.length = g.length)
    (hoob : row < 0 ∨ (g.length : ℤ) ≤ row ∨ col < 0 ∨ (g.length : ℤ) ≤ col) :
    setCell g row col c = g := by
  apply List.ext_getElem?
  intro r'
  simp only [setCell, mapIdxFrom_getElem?, Nat.zero_add]
  cases hg : g[r']? with
  | none => simp
  | some r =>
    have hr' : r' < g.length := getElem?_bound hg
    have hrlen : r.length = g.length := hsq r (List.getElem?_mem hg)
    simp only [Option.map_some']
    congr 1
    apply List.ext_getElem?
    intro c'
    simp only [mapIdxFrom_getElem?, Nat.zero_add]
    cases hp : r[c']? with
    | none => simp
    | some p =>
      have hc' : c' < r.length := getElem?_bound hp
      simp only [Option.map_some', Option.some_inj]
      rw [if_neg]
      rintro ⟨h1, h2⟩
      omega

/-- C6 (amended): an out-of-bounds `drawPixel` raises no error and leaves
every cell of the canvas unchanged, but it still commits a (value-identical)
snapshot to the history — the operation is not entirely rejected. -/
theorem drawPixel_oob (s : PixelState) (row col : ℤ)
    (hsq : ∀ r ∈ s.canvas, r.length = s.canvas.length)
    (hoob : row < 0 ∨ (s.canvas.length : ℤ) ≤ row ∨
            col < 0 ∨ (s.canvas.length : ℤ) ≤ col) :
    (drawPixel s row col).canvas = s.canvas ∧
    (drawPixel s row col).history = saveToHistory s.history s.canvas ∧
    (drawPixel s row col).history.seq.length =
      min (s.history.cursor + 1) s.history.seq.length + 1 := by
  have h := setCell_oob s.canvas row col s.selectedColor hsq hoob
  refine ⟨?_, ?_, ?_⟩ <;>
    simp [drawPixel, h, saveToHistory, List.length_take]

/-- C6 counterexample: on a 1 × 1 grid, `drawPixel` at the out-of-bounds
cell (1, 0) produces no error and no changed cell, yet the history grows
from one snapshot to two — a history entry is committed, contrary to the
claim that the operation is entirely rejected with nothing committed. -/
theorem drawPixel_oob_commits :
    (drawPixel ⟨[["#FFFFFF"]], "#FF0000", ⟨[[["#FFFFFF"]]], 0⟩⟩ 1 0).canvas
        = [["#FFFFFF"]] ∧
    (drawPixel ⟨[["#FFFFFF"]], "#FF0000", ⟨[[["#FFFFFF"]]], 0⟩⟩ 1 0).history.seq.length = 2 ∧
    (⟨[[["#FFFFFF"]]], 0⟩ : History).seq.length = 1 := by
  constructor
  · rfl
  · exact ⟨rfl, rfl⟩

/-! ## Claims about the history -/

/-- C2: committing while the cursor sits strictly before the last snapshot
truncates the sequence to `[0..cursor]`, appends the new grid, and puts the
cursor at the new last index; immediately afterwards redo is a no-op and
reports `AtHistoryEnd` (the button-disabling predicate is false), so the
discarded snapshots are irrecoverable. -/
theorem saveToHistory_truncates (h : History) (g : Grid)
    (hk : h.cursor < h.seq.length - 1) :
    (saveToHistory h g).seq = h.seq.take (h.cursor + 1) ++ [g] ∧
    (saveToHistory h g).cursor = h.cursor + 1 ∧
    (saveToHistory h g).cursor = (saveToHistory h g).seq.length - 1 ∧
    redo (saveToHistory h g) = saveToHistory h g ∧
    canRedo (saveToHistory h g) = false := by
  have hlen : (saveToHistory h g).seq.length = h.cursor + 2 := by
    simp [saveToHistory, List.length_take]
    omega
  have hcur : (saveToHistory h g).cursor = h.cursor + 1 := by
    simp [saveToHistory, List.length_take]
    omega
  have hno : ¬((saveToHistory h g).cursor < (saveToHistory h g).seq.length - 1) := by
    rw [hlen, hcur]; omega
  refine ⟨rfl, hcur, by rw [hlen, hcur]; omega, ?_, ?_⟩
  · unfold redo
    rw [if_neg hno]
  · simp [canRedo, hno]

/-- Every reachable history keeps its cursor inside the sequence. -/
lemma reachable_cursor_lt {h : History} (hr : Reachable h) :
    h.cursor < h.seq.length := by
  induction hr with
  | init g => simp [History.init]
  | save g _ ih =>
    simp only [saveToHistory, List.length_take, List.length_append]
    omega
  | undo _ ih =>
    unfold undo
    split
    · dsimp only; omega
    · omega
  | redo _ ih =>
    unfold redo
    split
    · dsimp only; omega
    · omega

/-- C4: from any reachable history in which undo is valid (cursor > 0),
undo followed by redo restores the whole history state — in particular the
cursor returns to its pre-undo position and the current grid is exactly the
grid that was current before the undo. -/
theorem undo_redo_restores (h : History) (hr : Reachable h) (hc : 0 < h.cursor) :
    redo (undo h) = h ∧ currentGrid (redo (undo h)) = currentGrid h := by
  obtain ⟨seq, cursor⟩ := h
  have hlt : cursor < seq.length := reachable_cursor_lt hr
  dsimp only at hc hlt
  have h1 : undo ⟨seq, cursor⟩ = ⟨seq, cursor - 1⟩ := by
    unfold undo; rw [if_pos hc]
  have h2 : redo (undo ⟨seq, cursor⟩) = ⟨seq, cursor⟩ := by
    rw [h1]
    unfold redo
    dsimp only
    rw [if_pos (by omega)]
    simp only [History.mk.injEq, true_and]
    omega
  exact ⟨h2, by rw [h2]⟩

/-- C10: `clearCanvas` replaces the grid with a fresh all-white
`GRID_SIZE × GRID_SIZE` grid and commits it as one single new history entry:
the redo branch is truncated, the cursor moves to the new last index, redo
is immediately unavailable, and a single undo steps back to the pre-clear
snapshot. -/
theorem clearCanvas_spec (s : PixelState)
    (hinv : s.history.cursor < s.history.seq.length) :
    (∀ r c : ℕ, r < GRID_SIZE → c < GRID_SIZE →
      getCell (clearCanvas s).canvas r c = some "#FFFFFF") ∧
    (clearCanvas s).canvas = mkGrid GRID_SIZE ∧
    (clearCanvas s).history.seq =
      s.history.seq.take (s.history.cursor + 1) ++ [mkGrid GRID_SIZE] ∧
    (clearCanvas s).history.cursor = s.history.cursor + 1 ∧
    (clearCanvas s).history.seq.length = s.history.cursor + 2 ∧
    canRedo ((clearCanvas s).history) = false ∧
    (undo (clearCanvas s).history).cursor = s.history.cursor := by
  have hlen : (clearCanvas s).history.seq.length = s.history.cursor + 2 := by
    simp [clearCanvas, saveToHistory, List.length_take]
    omega
  have hcur : (clearCanvas s).history.cursor = s.history.cursor + 1 := by
    simp [clearCanvas, saveToHistory, List.length_take]
    omega
  refine ⟨?_, rfl, rfl, hcur, hlen, ?_, ?_⟩
  · intro r c hr hc
    exact getCell_mkGrid GRID_SIZE r c hr hc
  · simp [canRedo, hlen, hcur]
  · unfold undo
    rw [if_pos (by rw [hcur]; omega)]
    dsimp only
    rw [hcur]
    omega

/-! ## Claims about the color converter -/

/-! Helper lemmas for the hue algebra (C1). -/

lemma maxF_den (a b d : ℤ) (hd : 0 < d) : Frac.maxF ⟨a, d⟩ ⟨b, d⟩ = ⟨max a b, d⟩ := by
  unfold Frac.maxF Frac.leF
  split_ifs with h
  · simp only [decide_eq_true_eq] at h
    have : a ≤ b := le_of_mul_le_mul_right h hd
    rw [max_eq_right this]
  · simp only [decide_eq_true_eq, not_le] at h
    have : b ≤ a := le_of_lt (by exact lt_of_mul_lt_mul_right h (le_of_lt hd))
    rw [max_eq_left this]

lemma minF_den (a b d : ℤ) (hd : 0 < d) : Frac.minF ⟨a, d⟩ ⟨b, d⟩ = ⟨min a b, d⟩ := by
  unfold Frac.minF Frac.leF
  split_ifs with h
  · simp only [decide_eq_true_eq] at h
    have : b ≤ a := le_of_mul_le_mul_right h hd
    rw [min_eq_right this]
  · simp only [decide_eq_true_eq, not_le] at h
    have : a ≤ b := le_of_lt (by exact lt_of_mul_lt_mul_right h (le_of_lt hd))
    rw [min_eq_left this]

lemma roundF_ge (n d lo : ℤ) (hd : 0 < d) (h : lo * d ≤ n) : lo ≤ Frac.roundF ⟨n, d⟩ := by
  unfold Frac.roundF
  dsimp only
  rw [Int.le_ediv_iff_mul_le (by omega)]
  nlinarith

lemma roundF_le (n d hi : ℤ) (hd : 0 < d) (h : n ≤ hi * d) : Frac.roundF ⟨n, d⟩ ≤ hi := by
  unfold Frac.roundF
  dsimp only
  rw [show hi = (hi + 1) - 1 by ring]
  have : (2 * n + d) / (2 * d) < hi + 1 := by
    rw [Int.ediv_lt_iff_lt_mul (by omega)]
    nlinarith
  omega

lemma roundF_shift (n d k : ℤ) (hd : 0 < d) :
    Frac.roundF ⟨n + k * d, d⟩ = Frac.roundF ⟨n, d⟩ + k := by
  unfold Frac.roundF
  have e : 2 * (n + k * d) + d = (2 * n + d) + k * (2 * d) := by ring
  rw [e, Int.add_mul_ediv_right _ _ (by omega)]


lemma fracEq (a b : ℤ) (c d : ℤ) (h1 : a = b) (h2 : c = d) :
    (⟨a, c⟩ : Frac) = ⟨b, d⟩ := by rw [h1, h2]

lemma addIntF (x d k : ℤ) : Frac.add ⟨x, d⟩ (Frac.ofInt k) = ⟨x + k * d, d⟩ := by
  unfold Frac.add Frac.ofInt
  exact fracEq _ _ _ _ (by ring) (by ring)

lemma mulIntF (x d k : ℤ) : Frac.mul ⟨x, d⟩ (Frac.ofInt k) = ⟨x * k, d⟩ := by
  unfold Frac.mul Frac.ofInt
  exact fracEq _ _ _ _ (by ring) (by ring)

lemma divPosF (x d y e : ℤ) (hy : 0 ≤ y) : Frac.div ⟨x, d⟩ ⟨y, e⟩ = ⟨x * e, d * y⟩ := by
  unfold Frac.div
  rw [if_pos hy]

/-- The hue computation, analysed over arbitrary channel values: its result
lies in [-60, 300], and the specification's mathematical-modulus reading
agrees with it except in the negative-remainder case, where the spec value
is exactly 360 more. -/
lemma hueAlgebra (R G B : ℕ) :
    (-60 ≤ hueOfChannels R G B ∧ hueOfChannels R G B ≤ 300) ∧
    (hueOfChannelsSpec R G B = hueOfChannels R G B ∨
      hueOfChannelsSpec R G B = hueOfChannels R G B + 360) := by
  have hr : Frac.div (Frac.ofInt (R : ℤ)) (Frac.ofInt 255) = ⟨(R : ℤ), 255⟩ := by
    simp [Frac.div, Frac.ofInt]
  have hg : Frac.div (Frac.ofInt (G : ℤ)) (Frac.ofInt 255) = ⟨(G : ℤ), 255⟩ := by
    simp [Frac.div, Frac.ofInt]
  have hb : Frac.div (Frac.ofInt (B : ℤ)) (Frac.ofInt 255) = ⟨(B : ℤ), 255⟩ := by
    simp [Frac.div, Frac.ofInt]
  have hmax1 : Frac.maxF ⟨(G : ℤ), 255⟩ ⟨(B : ℤ), 255⟩ = ⟨max (G : ℤ) (B : ℤ), 255⟩ :=
    maxF_den _ _ _ (by norm_num)
  have hmax2 : Frac.maxF ⟨(R : ℤ), 255⟩ ⟨max (G : ℤ) (B : ℤ), 255⟩
      = ⟨max (R : ℤ) (max (G : ℤ) (B : ℤ)), 255⟩ := maxF_den _ _ _ (by norm_num)
  have hmin1 : Frac.minF ⟨(G : ℤ), 255⟩ ⟨(B : ℤ), 255⟩ = ⟨min (G : ℤ) (B : ℤ), 255⟩ :=
    minF_den _ _ _ (by norm_num)
  have hmin2 : Frac.minF ⟨(R : ℤ), 255⟩ ⟨min (G : ℤ) (B : ℤ), 255⟩
      = ⟨min (R : ℤ) (min (G : ℤ) (B : ℤ)), 255⟩ := minF_den _ _ _ (by norm_num)
  simp only [hueOfChannels, hueOfChannelsSpec]
  rw [hr, hg, hb, hmax1, hmax2, hmin1, hmin2]
  set M := max (R : ℤ) (max (G : ℤ) (B : ℤ)) with hMdef
  set m := min (R : ℤ) (min (G : ℤ) (B : ℤ)) with hmdef
  have hmM : m ≤ M := le_trans (min_le_left _ _) (le_max_left _ _)
  have hGM : (G : ℤ) ≤ M := le_trans (le_max_left _ _) (le_max_right _ _)
  have hBM : (B : ℤ) ≤ M := le_trans (le_max_right _ _) (le_max_right _ _)
  have hRM : (R : ℤ) ≤ M := le_max_left _ _
  have hmG : m ≤ (G : ℤ) := le_trans (min_le_right _ _) (min_le_left _ _)
  have hmB : m ≤ (B : ℤ) := le_trans (min_le_right _ _) (min_le_right _ _)
  have hmR : m ≤ (R : ℤ) := min_le_left _ _
  have hdiff : Frac.sub ⟨M, 255⟩ ⟨m, 255⟩ = ⟨(M - m) * 255, 65025⟩ :=
    fracEq _ _ _ _ (by ring) (by norm_num)
  rw [hdiff]
  by_cases hMm : M = m
  · -- diff = 0: both sides are round 0 = 0
    have hc : Frac.beq ⟨(M - m) * 255, 65025⟩ (Frac.ofInt 0) = true := by
      simp [Frac.beq, Frac.ofInt]
      omega
    rw [hc, if_neg (show ¬¬((true : Bool) = true) by simp),
      if_neg (show ¬¬((true : Bool) = true) by simp)]
    have hz : Frac.roundF (Frac.mul (Frac.ofInt 0) (Frac.ofInt 60)) = 0 := by decide
    rw [hz]
    exact ⟨⟨by norm_num, by norm_num⟩, Or.inl rfl⟩
  · -- diff ≠ 0
    have hMm' : 0 < M - m := by omega
    have hc : Frac.beq ⟨(M - m) * 255, 65025⟩ (Frac.ofInt 0) = false := by
      simp [Frac.beq, Frac.ofInt]
      omega
    rw [hc, if_pos (show ¬((false : Bool) = true) by simp),
      if_pos (show ¬((false : Bool) = true) by simp)]
    have hsubGB : Frac.sub ⟨(G : ℤ), 255⟩ ⟨(B : ℤ), 255⟩ = ⟨((G : ℤ) - B) * 255, 65025⟩ :=
      fracEq _ _ _ _ (by ring) (by norm_num)
    have hsubBR : Frac.sub ⟨(B : ℤ), 255⟩ ⟨(R : ℤ), 255⟩ = ⟨((B : ℤ) - R) * 255, 65025⟩ :=
      fracEq _ _ _ _ (by ring) (by norm_num)
    have hsubRG : Frac.sub ⟨(R : ℤ), 255⟩ ⟨(G : ℤ), 255⟩ = ⟨((R : ℤ) - G) * 255, 65025⟩ :=
      fracEq _ _ _ _ (by ring) (by norm_num)
    have hMnonneg : (0 : ℤ) ≤ (M - m) * 255 := by omega
    by_cases hMR : M = (R : ℤ)
    · -- max = r: the JavaScript remainder branch
      have hcr : Frac.beq ⟨M, 255⟩ ⟨(R : ℤ), 255⟩ = true := by
        simp [Frac.beq]
        omega
      rw [hcr, if_pos rfl, if_pos rfl, hsubGB, divPosF _ _ _ _ hMnonneg]
      set n0 : ℤ := ((G : ℤ) - B) * 255 * 65025 with hn0def
      set d0 : ℤ := 65025 * ((M - m) * 255) with hd0def
      have hd0 : 0 < d0 := by rw [hd0def]; omega
      have hup : n0 ≤ d0 := by rw [hn0def, hd0def]; omega
      have hlo : -d0 ≤ n0 := by rw [hn0def, hd0def]; omega
      have hq6 : Frac.div ⟨n0, d0⟩ (Frac.ofInt 6) = ⟨n0 * 1, d0 * 6⟩ :=
        divPosF _ _ _ _ (by norm_num)
      have htr : Frac.truncF ⟨n0 * 1, d0 * 6⟩ = 0 := by
        unfold Frac.truncF
        dsimp only
        split_ifs with hn
        · exact Int.ediv_eq_zero_of_lt hn (by omega)
        · push_neg at hn
          rw [Int.ediv_eq_zero_of_lt (by omega) (by omega)]
          norm_num
      have hrem : Frac.jsRem ⟨n0, d0⟩ (Frac.ofInt 6) = ⟨n0, d0⟩ := by
        unfold Frac.jsRem
        rw [hq6, htr]
        unfold Frac.mul Frac.sub Frac.ofInt
        exact fracEq _ _ _ _ (by ring) (by ring)
      rw [hrem, mulIntF]
      refine ⟨⟨roundF_ge _ _ _ hd0 (by omega),
        le_trans (roundF_le _ _ 60 hd0 (by omega)) (by norm_num)⟩, ?_⟩
      -- the spec side: mathematical modulus
      by_cases hn0 : 0 ≤ n0
      · have hmm : Frac.mathMod ⟨n0, d0⟩ (Frac.ofInt 6) = ⟨n0, d0⟩ := by
          unfold Frac.mathMod
          rw [hq6]
          dsimp only
          rw [Int.ediv_eq_zero_of_lt (by omega) (by omega)]
          unfold Frac.mul Frac.sub Frac.ofInt
          exact fracEq _ _ _ _ (by ring) (by ring)
        rw [hmm, mulIntF]
        exact Or.inl rfl
      · push_neg at hn0
        have hediv : n0 * 1 / (d0 * 6) = -1 := by
          have h1 : (n0 * 1 + d0 * 6) / (d0 * 6) = 0 :=
            Int.ediv_eq_zero_of_lt (by omega) (by omega)
          have h2 : (n0 * 1 + 1 * (d0 * 6)) / (d0 * 6) = n0 * 1 / (d0 * 6) + 1 :=
            Int.add_mul_ediv_right _ _ (by omega)
          rw [one_mul] at h2
          omega
        have hmm : Frac.mathMod ⟨n0, d0⟩ (Frac.ofInt 6) = ⟨n0 + 6 * d0, d0⟩ := by
          unfold Frac.mathMod
          rw [hq6]
          dsimp only
          rw [hediv]
          unfold Frac.mul Frac.sub Frac.ofInt
          exact fracEq _ _ _ _ (by ring) (by ring)
        rw [hmm, mulIntF]
        have hshift : (⟨(n0 + 6 * d0) * 60, d0⟩ : Frac) = ⟨n0 * 60 + 360 * d0, d0⟩ :=
          fracEq _ _ _ _ (by ring) rfl
        rw [hshift, roundF_shift _ _ _ hd0]
        exact Or.inr rfl
    · have hcr : Frac.beq ⟨M, 255⟩ ⟨(R : ℤ), 255⟩ = false := by
        simp [Frac.beq]
        omega
      rw [hcr, if_neg (show ¬((false : Bool) = true) by simp),
        if_neg (show ¬((false : Bool) = true) by simp)]
      by_cases hMG : M = (G : ℤ)
      · -- max = g
        have hcg : Frac.beq ⟨M, 255⟩ ⟨(G : ℤ), 255⟩ = true := by
          simp [Frac.beq]
          omega
        rw [hcg, if_pos rfl, hsubBR, divPosF _ _ _ _ hMnonneg, addIntF, mulIntF]
        set n1 : ℤ := ((B : ℤ) - R) * 255 * 65025 with hn1def
        set d0 : ℤ := 65025 * ((M - m) * 255) with hd0def
        have hd0 : 0 < d0 := by rw [hd0def]; omega
        have hup : n1 ≤ d0 := by rw [hn1def, hd0def]; omega
        have hlo : -d0 ≤ n1 := by rw [hn1def, hd0def]; omega
        refine ⟨⟨le_trans (by norm_num) (roundF_ge _ _ 60 hd0 (by omega)),
          le_trans (roundF_le _ _ 180 hd0 (by omega)) (by norm_num)⟩, Or.inl rfl⟩
      · -- max = b (the final else branch)
        have hcg : Frac.beq ⟨M, 255⟩ ⟨(G : ℤ), 255⟩ = false := by
          simp [Frac.beq]
          omega
        have hMB : M = (B : ℤ) := by
          have hMor : M = (R : ℤ) ∨ M = (G : ℤ) ∨ M = (B : ℤ) := by
            rw [hMdef]
            rcases max_choice (R : ℤ) (max (G : ℤ) (B : ℤ)) with h | h
            · exact Or.inl h
            · rcases max_choice (G : ℤ) (B : ℤ) with h2 | h2
              · exact Or.inr (Or.inl (h.trans h2))
              · exact Or.inr (Or.inr (h.trans h2))
          tauto
        rw [hcg, if_neg (show ¬((false : Bool) = true) by simp),
          hsubRG, divPosF _ _ _ _ hMnonneg, addIntF, mulIntF]
        set n2 : ℤ := ((R : ℤ) - G) * 255 * 65025 with hn2def
        set d0 : ℤ := 65025 * ((M - m) * 255) with hd0def
        have hd0 : 0 < d0 := by rw [hd0def]; omega
        have hup : n2 ≤ d0 := by rw [hn2def, hd0def]; omega
        have hlo : -d0 ≤ n2 := by rw [hn2def, hd0def]; omega
        refine ⟨⟨le_trans (by norm_num) (roundF_ge _ _ 180 hd0 (by omega)),
          roundF_le _ _ 300 hd0 (by omega)⟩, Or.inl rfl⟩

/-- C1 (amended): for every color string, `colorToHue` returns an integer in
[-60, 300] — not [0, 360): the JavaScript `%` keeps the dividend's sign, so
when the max channel is r and g < b the result is negative (it equals the
standard hue minus 360).  The computation otherwise follows the
max/min-channel chroma method: the value of the specification's formula
(`mod` read as a true modulus) equals the code's value exactly, or exceeds
it by exactly 360 in the negative-remainder case. -/
theorem colorToHue_range_spec (color : String) :
    (-60 ≤ colorToHue color ∧ colorToHue color ≤ 300) ∧
    (colorToHueSpec color = colorToHue color ∨
      colorToHueSpec color = colorToHue color + 360) := by
  unfold colorToHue colorToHueSpec
  exact hueAlgebra _ _ _


/-- C9: the hue slider accepts 360 (its `max`), but `hueToColor 360` falls
through all six sextant branches, leaving the pre-offset channels at 0, and
returns black instead of the red produced for hue 0. -/
theorem hueToColor_360_black :
    hueToColor 360 = "#000000" ∧ hueToColor 0 = "#ff0000" ∧
    hueToColor 360 ≠ hueToColor 0 := by decide

/-- C1 counterexample: for the color `#FF0080` (max channel r, g < b) the
JavaScript remainder is negative, so `colorToHue` returns −30 — not an
integer in [0, 360) as claimed. -/
theorem colorToHue_negative :
    colorToHue "#FF0080" = -30 ∧ ¬(0 ≤ colorToHue "#FF0080") := by decide

/-- C3 counterexample: at h = 300 (magenta) the inner composition returns
−60, and feeding −60 back through `hueToColor` falls through every sextant
branch and yields black, so the round-trip fails. -/
theorem hueRoundTrip_fails_at_300 :
    hueToColor 300 = "#ff00ff" ∧
    colorToHue (hueToColor 300) = -60 ∧
    hueToColor (colorToHue (hueToColor 300)) = "#000000" ∧
    hueToColor (colorToHue (hueToColor 300)) ≠ hueToColor 300 := by decide

set_option maxRecDepth 40000 in
/-- C3 (amended): the hue round-trip is exact for every integer hue in
[0, 300): `colorToHue (hueToColor h) = h`, hence re-applying `hueToColor`
reproduces the color.  For h in [300, 360) the inner composition returns
`h − 360` (the JavaScript remainder is negative there) and the re-applied
`hueToColor` collapses to black. -/
theorem hueRoundTrip : ∀ h : ℕ, h < 360 →
    ((h < 300 → colorToHue (hueToColor h) = h ∧
        hueToColor (colorToHue (hueToColor h)) = hueToColor h) ∧
     (300 ≤ h → colorToHue (hueToColor h) = (h : ℤ) - 360 ∧
        hueToColor (colorToHue (hueToColor h)) = "#000000")) := by decide

/-- Witness for C3: the round-trip theorem applied at h = 120 (green). -/
theorem hueRoundTrip_witness :
    colorToHue (hueToColor 120) = 120 ∧
    hueToColor (colorToHue (hueToColor 120)) = hueToColor 120 :=
  (hueRoundTrip 120 (by decide)).1 (by decide)

/-! ## Claims about the hex input -/

/-- C8: the hex input accepts exactly the strings matching
`^#[0-9A-Fa-f]{6}$` — length 7, a leading `'#'`, every remaining character
a hex digit — and on acceptance the selected color becomes the text while
on rejection the selected color is left unchanged. -/
theorem parseHex_exact (cur : Color) (text : String) :
    (hexColorTest text = true ↔
      text.length = 7 ∧ text.data.head? = some '#' ∧
        ∀ c ∈ text.data.tail, isHexDigitChar c = true) ∧
    (hexColorTest text = true → parseHex cur text = text) ∧
    (hexColorTest text = false → parseHex cur text = cur) := by
  refine ⟨?_, fun h => by simp [parseHex, h], fun h => by simp [parseHex, h]⟩
  obtain ⟨data⟩ := text
  cases data with
  | nil => simp [hexColorTest, String.length]
  | cons c cs =>
    simp only [hexColorTest, String.length, List.length_cons, List.head?_cons,
      List.tail_cons, Bool.and_eq_true, beq_iff_eq, List.all_eq_true,
      Option.some_inj]
    constructor
    · rintro ⟨⟨h1, h2⟩, h3⟩
      exact ⟨by omega, h1, h3⟩
    · rintro ⟨h1, h2, h3⟩
      exact ⟨⟨h2, by omega⟩, h3⟩

/-! ## Claims about the rasterizer -/

lemma fillRect_miss (buf : PixelBuffer) (x y w h : ℕ) (c : Color) (px py : ℕ)
    (hm : ¬(x ≤ px ∧ px < x + w ∧ y ≤ py ∧ py < y + h)) :
    fillRect buf x y w h c px py = buf px py := by
  simp only [fillRect]
  rw [if_neg hm]

lemma fillRect_hit (buf : PixelBuffer) (x y w h : ℕ) (c : Color) (px py : ℕ)
    (hm : x ≤ px ∧ px < x + w ∧ y ≤ py ∧ py < y + h) :
    fillRect buf x y w h c px py = some c := by
  simp only [fillRect]
  rw [if_pos hm]

lemma renderRowCells_miss (s ri : ℕ) (row : List Color) :
    ∀ (j0 : ℕ) (buf : PixelBuffer) (px py : ℕ),
      (px < j0 * s ∨ (j0 + row.length) * s ≤ px ∨
        py < ri * s ∨ (ri + 1) * s ≤ py) →
      renderRowCells s ri row j0 buf px py = buf px py := by
  induction row with
  | nil => intro j0 buf px py _; rfl
  | cons c rest ih =>
    intro j0 buf px py hm
    simp only [List.length_cons] at hm
    have e1 : (j0 + 1) * s = j0 * s + s := by ring
    have e2 : (j0 + (rest.length + 1)) * s = j0 * s + s + rest.length * s := by ring
    have e3 : (j0 + 1 + rest.length) * s = j0 * s + s + rest.length * s := by ring
    have e4 : (ri + 1) * s = ri * s + s := by ring
    calc renderRowCells s ri (c :: rest) j0 buf px py
        = renderRowCells s ri rest (j0 + 1)
            (fillRect buf (j0 * s) (ri * s) s s c) px py := rfl
      _ = fillRect buf (j0 * s) (ri * s) s s c px py := by
          apply ih (j0 + 1) _ px py
          rcases hm with hm | hm | hm | hm
          · left; omega
          · right; left; omega
          · right; right; left; exact hm
          · right; right; right; exact hm
      _ = buf px py := by
          apply fillRect_miss
          rintro ⟨h1, h2, h3, h4⟩
          rcases hm with hm | hm | hm | hm <;> omega

lemma renderRowCells_hit (s ri : ℕ) (hs : 0 < s) (row : List Color) :
    ∀ (j0 : ℕ) (buf : PixelBuffer) (px py : ℕ),
      ri * s ≤ py → py < (ri + 1) * s →
      j0 * s ≤ px → px < (j0 + row.length) * s →
      renderRowCells s ri row j0 buf px py = row[px / s - j0]? := by
  induction row with
  | nil =>
    intro j0 buf px py _ _ h3 h4
    simp only [List.length_nil, Nat.add_zero] at h4
    omega
  | cons c rest ih =>
    intro j0 buf px py hy1 hy2 hx1 hx2
    simp only [List.length_cons] at hx2
    have e1 : (j0 + 1) * s = j0 * s + s := by ring
    have e2 : (j0 + (rest.length + 1)) * s = j0 * s + s + rest.length * s := by ring
    have e3 : (j0 + 1 + rest.length) * s = j0 * s + s + rest.length * s := by ring
    have e4 : (ri + 1) * s = ri * s + s := by ring
    by_cases hpx : px < (j0 + 1) * s
    · have hdiv : px / s = j0 := by
        apply Nat.div_eq_of_lt_le hx1
        rw [Nat.succ_mul]
        omega
      rw [hdiv, Nat.sub_self, List.getElem?_cons_zero]
      calc renderRowCells s ri (c :: rest) j0 buf px py
          = renderRowCells s ri rest (j0 + 1)
              (fillRect buf (j0 * s) (ri * s) s s c) px py := rfl
        _ = fillRect buf (j0 * s) (ri * s) s s c px py :=
            renderRowCells_miss s ri rest (j0 + 1) _ px py (Or.inl hpx)
        _ = some c := fillRect_hit _ _ _ _ _ _ _ _ ⟨hx1, by omega, hy1, by omega⟩
    · push_neg at hpx
      have hge : j0 + 1 ≤ px / s := (Nat.le_div_iff_mul_le hs).mpr hpx
      have hsub : px / s - j0 = (px / s - (j0 + 1)) + 1 := by omega
      rw [hsub, List.getElem?_cons_succ]
      calc renderRowCells s ri (c :: rest) j0 buf px py
          = renderRowCells s ri rest (j0 + 1)
              (fillRect buf (j0 * s) (ri * s) s s c) px py := rfl
        _ = rest[px / s - (j0 + 1)]? :=
            ih (j0 + 1) _ px py hy1 hy2 hpx (by omega)

lemma renderRows_miss (s : ℕ) (rows : Grid) :
    ∀ (r0 : ℕ) (buf : PixelBuffer) (px py : ℕ),
      (py < r0 * s ∨ (r0 + rows.length) * s ≤ py) →
      renderRows s rows r0 buf px py = buf px py := by
  induction rows with
  | nil => intro r0 buf px py _; rfl
  | cons row rest ih =>
    intro r0 buf px py hm
    simp only [List.length_cons] at hm
    have e1 : (r0 + 1) * s = r0 * s + s := by ring
    have e2 : (r0 + (rest.length + 1)) * s = r0 * s + s + rest.length * s := by ring
    have e3 : (r0 + 1 + rest.length) * s = r0 * s + s + rest.length * s := by ring
    calc renderRows s (row :: rest) r0 buf px py
        = renderRows s rest (r0 + 1) (renderRowCells s r0 row 0 buf) px py := rfl
      _ = renderRowCells s r0 row 0 buf px py := by
          apply ih (r0 + 1) _ px py
          rcases hm with hm | hm
          · left; omega
          · right; omega
      _ = buf px py := by
          apply renderRowCells_miss s r0 row 0 _ px py
          rcases hm with hm | hm
          · right; right; left; exact hm
          · right; right; right; omega

lemma renderRows_hit (s : ℕ) (hs : 0 < s) (rows : Grid) :
    ∀ (r0 : ℕ) (buf : PixelBuffer) (px py : ℕ) (row : List Color),
      rows[py / s - r0]? = some row →
      r0 * s ≤ py → py < (r0 + rows.length) * s →
      px < row.length * s →
      renderRows s rows r0 buf px py = row[px / s]? := by
  induction rows with
  | nil => intro r0 buf px py row hrow _ _ _; simp at hrow
  | cons r rest ih =>
    intro r0 buf px py row hrow hy1 hy2 hx
    simp only [List.length_cons] at hy2
    have e1 : (r0 + 1) * s = r0 * s + s := by ring
    have e2 : (r0 + (rest.length + 1)) * s = r0 * s + s + rest.length * s := by ring
    have e3 : (r0 + 1 + rest.length) * s = r0 * s + s + rest.length * s := by ring
    by_cases hpy : py < (r0 + 1) * s
    · have hdiv : py / s = r0 := by
        apply Nat.div_eq_of_lt_le hy1
        rw [Nat.succ_mul]
        omega
      rw [hdiv, Nat.sub_self, List.getElem?_cons_zero, Option.some_inj] at hrow
      subst hrow
      calc renderRows s (r :: rest) r0 buf px py
          = renderRows s rest (r0 + 1) (renderRowCells s r0 r 0 buf) px py := rfl
        _ = renderRowCells s r0 r 0 buf px py :=
            renderRows_miss s rest (r0 + 1) _ px py (Or.inl hpy)
        _ = r[px / s - 0]? :=
            renderRowCells_hit s r0 hs r 0 _ px py hy1 hpy (by omega)
              (by simpa using hx)
        _ = r[px / s]? := by rw [Nat.sub_zero]
    · push_neg at hpy
      have hge : r0 + 1 ≤ py / s := (Nat.le_div_iff_mul_le hs).mpr hpy
      have hsub : py / s - r0 = (py / s - (r0 + 1)) + 1 := by omega
      rw [hsub, List.getElem?_cons_succ] at hrow
      calc renderRows s (r :: rest) r0 buf px py
          = renderRows s rest (r0 + 1) (renderRowCells s r0 r 0 buf) px py := rfl
        _ = row[px / s]? := ih (r0 + 1) _ px py row hrow hpy (by omega) hx

/-- C7: for every square grid and every scale `s ≥ 1`, the rendered buffer
has cell `(r, c)` filling exactly the `s × s` pixel block
`[r·s, (r+1)·s) × [c·s, (c+1)·s)`: each in-range pixel `(px, py)` carries
the color of cell `(py / s, px / s)`, for either export format. -/
theorem render_blocks (g : Grid) (format : String) (s : ℕ) (hs : 1 ≤ s)
    (hsq : ∀ r ∈ g, r.length = g.length) (px py : ℕ)
    (hpx : px < g.length * s) (hpy : py < g.length * s) :
    render g format s px py = getCell g (py / s) (px / s) := by
  have hs0 : 0 < s := hs
  have hrow_lt : py / s < g.length := by
    rw [Nat.div_lt_iff_lt_mul hs0]
    exact hpy
  obtain ⟨row, hrow⟩ : ∃ row, g[py / s]? = some row := by
    rw [List.getElem?_eq_getElem hrow_lt]; exact ⟨_, rfl⟩
  have hlen : row.length = g.length := hsq row (List.getElem?_mem hrow)
  have key : render g format s px py = row[px / s]? := by
    show renderRows s g 0
      (if format = "jpeg"
        then fillRect (fun _ _ => none) 0 0 (g.length * s) (g.length * s) "#FFFFFF"
        else fun _ _ => none) px py = row[px / s]?
    apply renderRows_hit s hs0 g 0 _ px py row (by simpa using hrow) (by omega)
      (by simpa using hpy) (by rw [hlen]; exact hpx)
  rw [key]
  simp [getCell, hrow]

/-- Witness for C7: the spec's scenario — the 32 × 32 grid whose only
non-white cell is (0,0) = red, rendered at scale 10: pixel (5, 3) lies in
the red 10 × 10 block and pixel (100, 250) lies in a white block. -/
theorem render_blocks_witness :
    render (setCell (mkGrid 32) 0 0 "#FF0000") "png" 10 5 3 = some "#FF0000" ∧
    render (setCell (mkGrid 32) 0 0 "#FF0000") "png" 10 100 250 = some "#FFFFFF" :=
  ⟨(render_blocks (setCell (mkGrid 32) 0 0 "#FF0000") "png" 10 (by decide)
      (by decide) 5 3 (by decide) (by decide)).trans (by decide),
   (render_blocks (setCell (mkGrid 32) 0 0 "#FF0000") "png" 10 (by decide)
      (by decide) 100 250 (by decide) (by decide)).trans (by decide)⟩

/-! ## Concrete witnesses -/

/-- Witness for C2: committing over a two-snapshot history with the cursor
at 0 makes redo a no-op. -/
theorem saveToHistory_truncates_witness :
    redo (saveToHistory (History.mk [[["#FFFFFF"]], [["#000000"]]] 0) [["#FF0000"]]) =
      saveToHistory (History.mk [[["#FFFFFF"]], [["#000000"]]] 0) [["#FF0000"]] :=
  (saveToHistory_truncates (History.mk [[["#FFFFFF"]], [["#000000"]]] 0)
    [["#FF0000"]] (by decide)).2.2.2.1

/-- Witness for C4: undo then redo restores the state reached by one commit
after the initial snapshot. -/
theorem undo_redo_restores_witness :
    redo (undo (saveToHistory (History.init [["#FFFFFF"]]) [["#FF0000"]])) =
      saveToHistory (History.init [["#FFFFFF"]]) [["#FF0000"]] :=
  (undo_redo_restores _ (Reachable.save _ (Reachable.init _)) (by decide)).1

/-- Witness for C5: a cell written into a concrete 2 × 2 grid reads back. -/
theorem setCell_getCell_witness :
    getCell (setCell (mkGrid 2) 0 1 "#FF0000") 0 1 = some "#FF0000" :=
  (setCell_getCell (mkGrid 2) 0 1 "#FF0000" (by decide) (by decide) (by decide)).1

/-- Witness for C6 (amended): an out-of-bounds draw on a concrete 2 × 2
grid leaves the canvas unchanged. -/
theorem drawPixel_oob_witness :
    (drawPixel (PixelState.mk (mkGrid 2) "#FF0000" (History.mk [mkGrid 2] 0)) 5 0).canvas
      = mkGrid 2 :=
  (drawPixel_oob (PixelState.mk (mkGrid 2) "#FF0000" (History.mk [mkGrid 2] 0))
    5 0 (by decide) (by decide)).1

/-- Witness for C10: clearing from a concrete seeded state leaves redo
unavailable. -/
theorem clearCanvas_spec_witness :
    canRedo ((clearCanvas (PixelState.mk [["#000000"]] "#FF0000"
      (History.mk [[["#000000"]]] 0))).history) = false :=
  (clearCanvas_spec (PixelState.mk [["#000000"]] "#FF0000"
    (History.mk [[["#000000"]]] 0)) (by decide)).2.2.2.2.2.1
